import Mathlib

/-!
Shallow embedding of `src/minefield.rs` (minesweeper board engine of the
`enimdnal` repository) and verification of its specification claims.

Modelling conventions:
* Rust `Vec<Tile>` becomes `List Tile`; `usize` becomes `Nat` (no arithmetic
  here can overflow a 64-bit machine word for any realistically sized board,
  and the source never relies on wraparound).
* A Rust indexing expression `self.tiles[i]` that can panic is modelled with
  `l[i]?`; an operation that can panic returns `Option _`, where `none`
  models the panic.
* The ambient `thread_rng()` consumed by `choose_multiple` in `place_mines`
  is modelled by passing the drawn index list `chosen` explicitly; the
  predicate `chooseSpec` states exactly what `Iterator::choose_multiple`
  guarantees about that draw (distinct elements of the filtered range,
  `min amount available` of them).
* The `while let` loop of `flood_uncover` is modelled with explicit fuel.
  Each loop iteration pops one queue element, and elements are pushed only
  while processing a not-yet-visited blank tile (at most `width*height`
  such tiles, at most 8 pushes each, plus the initial seed), so the loop
  runs at most `1 + 8*width*height + 1` iterations; the fuel supplied by
  `flood_uncover` strictly exceeds that bound, hence the fuel-exhaustion
  branch is unreachable and the model agrees with the unbounded Rust loop.
-/

set_option linter.unusedVariables false

namespace Enimdnal

/-- Difficulty parameters (`Params` in the source). -/
structure Params where
  width : Nat
  height : Nat
  mines : Nat
deriving DecidableEq, Repr

/-- Preset `BEGINNER`. -/
def BEGINNER : Params := { width := 8, height := 8, mines := 10 }

/-- Preset `INTERMEDIATE`. -/
def INTERMEDIATE : Params := { width := 16, height := 16, mines := 40 }

/-- Preset `EXPERT`. -/
def EXPERT : Params := { width := 30, height := 16, mines := 99 }

/-- Player annotation on a covered tile (`Mark` in the source). -/
inductive Mark where
  | Flag
  | Unsure
  | None
deriving DecidableEq, Repr

/-- Cover state of a tile (`Cover` in the source). -/
inductive Cover where
  | Up (m : Mark)
  | Down
deriving DecidableEq, Repr

/-- Contents of a tile (`Object` in the source); `Hint` carries the
neighbouring-mine count (`u8` in the source, `Nat` here — the count is at
most 8 so the cast in `place_hints` never truncates). -/
inductive Object where
  | Mine
  | Hint (n : Nat)
  | Blank
deriving DecidableEq, Repr

/-- A board tile (`Tile` in the source). -/
structure Tile where
  cover : Cover
  object : Object
deriving DecidableEq, Repr

/-- The board (`Board` in the source). -/
structure Board where
  tiles : List Tile
  covered : Nat
  params : Params
  placed : Bool
  defeat : Bool
deriving DecidableEq, Repr

/-- `Mark::cycle`; the source mutates in place, modelled as the equivalent
pure successor function. -/
def Mark.cycle : Mark → Mark
  | Mark.None => Mark.Flag
  | Mark.Flag => Mark.Unsure
  | Mark.Unsure => Mark.None

/-- `Tile::new`. -/
def Tile.new : Tile :=
  { cover := Cover.Up Mark.None, object := Object.Blank }

/-- `Tile::is_uncoverable`: cover is `Up(mark)` with `mark != Flag`. -/
def Tile.is_uncoverable (t : Tile) : Bool :=
  match t.cover with
  | Cover.Up mark => decide (mark ≠ Mark.Flag)
  | Cover.Down => false

/-- `Tile::is_mine`. -/
def Tile.is_mine (t : Tile) : Bool :=
  match t.object with
  | Object.Mine => true
  | _ => false

/-- `Tile::is_hint`. -/
def Tile.is_hint (t : Tile) : Bool :=
  match t.object with
  | Object.Hint _ => true
  | _ => false

/-- `Board::new`. -/
def Board.new (params : Params) : Board :=
  let size := params.width * params.height
  { tiles := List.replicate size Tile.new
    covered := size
    params := params
    placed := false
    defeat := false }

/-- `Board::beginner`. -/
def Board.beginner : Board := Board.new BEGINNER

/-- `Board::intermediate`. -/
def Board.intermediate : Board := Board.new INTERMEDIATE

/-- `Board::expert`. -/
def Board.expert : Board := Board.new EXPERT

/-- `Board::dims`. -/
def Board.dims (b : Board) : Nat × Nat :=
  (b.params.width, b.params.height)

/-- `Board::coords_to_index`: `y * width + x`, with no per-axis bounds
check. -/
def Board.coords_to_index (b : Board) (x y : Nat) : Nat :=
  y * b.params.width + x

/-- `Board::tile`: `none` models the Rust index panic when the flattened
index falls outside the tile vector. -/
def Board.tile (b : Board) (x y : Nat) : Option Tile :=
  b.tiles[b.coords_to_index x y]?

/-- `Board::is_victory`: `covered == mines` — note the source consults only
the covered counter. -/
def Board.is_victory (b : Board) : Bool :=
  b.covered == b.params.mines

/-- `Board::is_defeat`. -/
def Board.is_defeat (b : Board) : Bool :=
  b.defeat

/-- The eight neighbour offsets of `Board::neighbours`, in source order. -/
def offsets : List (Int × Int) :=
  [(-1, -1), (-1, 0), (-1, 1), (0, -1), (0, 1), (1, -1), (1, 0), (1, 1)]

/-- `Board::neighbours`: the in-bounds 8-neighbours of `(x, y)`. -/
def Board.neighbours (b : Board) (x y : Nat) : List (Nat × Nat) :=
  offsets.filterMap (fun off =>
    let new_x : Int := (x : Int) + off.fst
    let new_y : Int := (y : Int) + off.snd
    if 0 ≤ new_x ∧ new_x < (b.params.width : Int) ∧
        0 ≤ new_y ∧ new_y < (b.params.height : Int) then
      some (new_x.toNat, new_y.toNat)
    else
      none)

/-- Reading `self.tiles[coords_to_index(x, y)].is_mine()`; the `none`
branch is dead in the source because this is only evaluated at in-bounds
coordinates of a board whose tile vector has `width*height` entries. -/
def Board.mine_at (b : Board) (x y : Nat) : Bool :=
  (b.tiles[b.coords_to_index x y]?).elim false Tile.is_mine

/-- Reading `self.tiles[coords_to_index(x, y)].is_uncoverable()`; as for
`Board.mine_at`, the `none` branch is dead in the source. -/
def Board.uncoverable_at (b : Board) (x y : Nat) : Bool :=
  (b.tiles[b.coords_to_index x y]?).elim false Tile.is_uncoverable

/-- The `mine_count` computed per tile inside `place_hints`: the number of
in-bounds 8-neighbours whose tile holds a mine. -/
def Board.nbr_mine_count (b : Board) (x y : Nat) : Nat :=
  ((b.neighbours x y).filter (fun pos => b.mine_at pos.fst pos.snd)).length

/-- What `Iterator::choose_multiple(&mut rng, amount)` guarantees about the
returned sample when the iterator is `(0..len).filter(|i| !skip.contains(i))`:
the elements are pairwise distinct members of that filtered range, and there
are `min amount (size of the range)` of them. -/
abbrev chooseSpec (len : Nat) (skip : List Nat) (amount : Nat)
    (chosen : List Nat) : Prop :=
  chosen.Nodup ∧
  (∀ i ∈ chosen, i ∈ (List.range len).filter (fun j => decide (j ∉ skip))) ∧
  chosen.length = min amount ((List.range len).filter (fun j => decide (j ∉ skip))).length

/-- The loop body of `place_mines`: `self.tiles[*mine].object = Object::Mine`.
The drawn indices are below `tiles.len()` by construction in the source
(they come from `0..tiles.len()` before filtering), so the `none` fallback
is dead code there. -/
def set_mine (ts : List Tile) (i : Nat) : List Tile :=
  match ts[i]? with
  | some t => ts.set i { t with object := Object.Mine }
  | none => ts

/-- `Board::place_mines`: assign `Object::Mine` at each drawn index.
`chosen` stands for the list produced by `choose_multiple` from the range
of indices filtered by the `skip` argument (see `chooseSpec`). -/
def Board.place_mines (b : Board) (chosen : List Nat) : Board :=
  { b with tiles := chosen.foldl set_mine b.tiles }

/-- The body of the nested `for` loops of `place_hints`, at one coordinate:
skip mines, otherwise count neighbouring mines and assign `Hint(count)`
when the count is positive. The `none` branch is dead in the source (loop
coordinates are in bounds). -/
def Board.place_hints_step (b : Board) (x y : Nat) : Board :=
  let idx := b.coords_to_index x y
  match b.tiles[idx]? with
  | none => b
  | some t =>
    if t.is_mine then b
    else
      let mine_count := b.nbr_mine_count x y
      if 0 < mine_count then
        { b with tiles := b.tiles.set idx { t with object := Object.Hint mine_count } }
      else b

/-- The coordinate sequence of the nested loops in `place_hints`:
`for x in 0..width { for y in 0..height { ... } }`, x-outer, y-inner. -/
def gridCoords (w h : Nat) : List (Nat × Nat) :=
  (List.range w).flatMap (fun x => (List.range h).map (fun y => (x, y)))

/-- Folding `place_hints_step` over a coordinate list. -/
def hints_fold (b : Board) (L : List (Nat × Nat)) : Board :=
  L.foldl (fun bb p => bb.place_hints_step p.fst p.snd) b

/-- `Board::place_hints`: the nested loops linearized over `gridCoords` in
the same x-outer/y-inner order. `params` never changes during the loop, so
reading the bounds once up front agrees with the source's re-reads of
`self.params` on every iteration. -/
def Board.place_hints (b : Board) : Board :=
  hints_fold b (gridCoords b.params.width b.params.height)

/-- The `while let Some(tile) = tile_pos.pop_front()` loop of
`flood_uncover`, with explicit fuel (see the module comment: the fuel
passed by `Board.flood_uncover` exceeds the iteration bound of the loop, so
the fuel-exhaustion branch is never taken). `visited` models the `HashSet`
(insert-if-absent, membership test); the queue is FIFO, pushes go to the
back. `none` models a Rust index panic. -/
def flood_go : Nat → Board → List (Nat × Nat) → List (Nat × Nat) → Option Board
  | 0, b, _, _ => some b
  | _ + 1, b, [], _ => some b
  | fuel + 1, b, tile :: rest, visited =>
    if tile ∈ visited then
      flood_go fuel b rest visited
    else
      let visited' := tile :: visited
      let t_idx := b.coords_to_index tile.fst tile.snd
      match b.tiles[t_idx]? with
      | none => none
      | some t =>
        if t.is_uncoverable && !t.is_mine then
          let b1 : Board := { b with tiles := b.tiles.set t_idx { t with cover := Cover.Down } }
          let b2 : Board :=
            if b1.params.mines < b1.covered then { b1 with covered := b1.covered - 1 } else b1
          -- the source re-reads `tiles[t_idx].is_hint()` after the cover
          -- assignment; the assignment leaves the object unchanged, so the
          -- re-read equals `t.is_hint`
          if !t.is_hint then
            let ns := (b2.neighbours tile.fst tile.snd).filter
              (fun p => b2.uncoverable_at p.fst p.snd)
            flood_go fuel b2 (rest ++ ns) visited'
          else
            flood_go fuel b2 rest visited'
        else
          flood_go fuel b rest visited'

/-- `Board::flood_uncover`: BFS seeded with the single coordinate `(x, y)`
and an empty visited set. -/
def Board.flood_uncover (b : Board) (x y : Nat) : Option Board :=
  flood_go (9 * (b.params.width * b.params.height) + 9) b [(x, y)] []

/-- `Board::handle_uncover`. `chosen` is the random draw consumed by
`place_mines` when this is the first uncover (see `chooseSpec` with
`skip = [coords_to_index x y]`); `none` models a Rust index panic. -/
def Board.handle_uncover (b : Board) (x y : Nat) (chosen : List Nat) : Option Board :=
  let tile_idx := b.coords_to_index x y
  let b1 :=
    if b.placed then b
    else (({ b with placed := true }).place_mines chosen).place_hints
  match b1.tiles[tile_idx]? with
  | none => none
  | some t =>
    match t.cover with
    | Cover.Up mark =>
      if mark = Mark.Flag then some b1
      else
        let b2 : Board := { b1 with tiles := b1.tiles.set tile_idx { t with cover := Cover.Down } }
        let b3 : Board :=
          if b2.params.mines < b2.covered then { b2 with covered := b2.covered - 1 } else b2
        -- the source re-reads `tiles[tile_idx].object` after the cover
        -- assignment; the assignment leaves the object unchanged, so the
        -- re-read equals `t.object`
        match t.object with
        | Object.Mine => some { b3 with defeat := true }
        | Object.Blank => b3.flood_uncover x y
        | Object.Hint _ => some b3
    | Cover.Down => some b1

/-- `Board::handle_mark`: cycle the mark of a covered tile; `none` models
the Rust index panic. -/
def Board.handle_mark (b : Board) (x y : Nat) : Option Board :=
  let tile_idx := b.coords_to_index x y
  match b.tiles[tile_idx]? with
  | none => none
  | some t =>
    match t.cover with
    | Cover.Up mark =>
      some { b with tiles := b.tiles.set tile_idx { t with cover := Cover.Up mark.cycle } }
    | Cover.Down => some b

/-- Observation: the number of tiles holding `Object::Mine`. -/
def mineCount (ts : List Tile) : Nat :=
  (ts.filter Tile.is_mine).length

/-! ### Basic helpers -/

theorem index_lt {w h x y : Nat} (hx : x < w) (hy : y < h) :
    y * w + x < w * h := by
  calc y * w + x < y * w + w := by omega
    _ = (y + 1) * w := by ring
    _ ≤ h * w := Nat.mul_le_mul_right w hy
    _ = w * h := Nat.mul_comm h w

theorem index_inj {w h x y x' y' : Nat} (hx : x < w) (hy : y < h)
    (hx' : x' < w) (hy' : y' < h) (hidx : y * w + x = y' * w + x') :
    x = x' ∧ y = y' := by
  have hww : 0 < w := by omega
  have h1 : x + w * y = x' + w * y' := by
    calc x + w * y = y * w + x := by ring
      _ = y' * w + x' := hidx
      _ = x' + w * y' := by ring
  have h2 : (x + w * y) % w = (x' + w * y') % w := by rw [h1]
  rw [Nat.add_mul_mod_self_left, Nat.add_mul_mod_self_left,
    Nat.mod_eq_of_lt hx, Nat.mod_eq_of_lt hx'] at h2
  subst h2
  have h3 : y * w = y' * w := by omega
  exact ⟨rfl, Nat.eq_of_mul_eq_mul_right hww h3⟩

theorem set_getElem?_id {α : Type _} {l : List α} {i : Nat} {a : α}
    (h : l[i]? = some a) : l.set i a = l := by
  have hi : i < l.length := by
    rcases List.getElem?_eq_some.mp h with ⟨hlt, _⟩
    exact hlt
  apply List.ext_getElem?
  intro n
  rcases eq_or_ne i n with rfl | hne
  · rw [List.getElem?_set_self hi, h]
  · rw [List.getElem?_set_ne hne]

theorem elim_congr_of_map_eq {o₁ o₂ : Option Tile} (f : Tile → Bool)
    (h : o₁.map f = o₂.map f) : o₁.elim false f = o₂.elim false f := by
  cases o₁ <;> cases o₂ <;> simp_all

/-- Setting only the cover of the tile at `i` leaves the object (hence
`is_mine`/`is_hint`) of every position unchanged. -/
theorem set_cover_object_map {ts : List Tile} {i : Nat} {t : Tile}
    (ht : ts[i]? = some t) (c : Cover) (j : Nat) :
    ((ts.set i { t with cover := c })[j]?).map Tile.object =
      (ts[j]?).map Tile.object := by
  have hi : i < ts.length := by
    rcases List.getElem?_eq_some.mp ht with ⟨hlt, _⟩
    exact hlt
  rcases eq_or_ne i j with rfl | hne
  · rw [List.getElem?_set_self hi, ht]
    rfl
  · rw [List.getElem?_set_ne hne]

/-! ### `place_mines` lemmas -/

theorem set_mine_length (ts : List Tile) (i : Nat) :
    (set_mine ts i).length = ts.length := by
  unfold set_mine
  rcases h : ts[i]? with _ | t
  · rfl
  · simp [List.length_set]

theorem set_mine_getElem?_ne {i j : Nat} (h : i ≠ j) (ts : List Tile) :
    (set_mine ts i)[j]? = ts[j]? := by
  unfold set_mine
  rcases hi : ts[i]? with _ | t
  · rfl
  · exact List.getElem?_set_ne h

theorem set_mine_getElem?_self (ts : List Tile) (i : Nat) :
    (set_mine ts i)[i]? = (ts[i]?).map (fun t => { t with object := Object.Mine }) := by
  unfold set_mine
  rcases hi : ts[i]? with _ | t
  · simp [hi]
  · have hlt : i < ts.length := by
      rcases List.getElem?_eq_some.mp hi with ⟨h, _⟩
      exact h
    rw [List.getElem?_set_self hlt]
    rfl

theorem mines_fold_length (c : List Nat) (ts : List Tile) :
    (c.foldl set_mine ts).length = ts.length := by
  induction c generalizing ts with
  | nil => rfl
  | cons j c ih => rw [List.foldl_cons, ih, set_mine_length]

theorem mines_fold_getElem?_not_mem {c : List Nat} {i : Nat} (h : i ∉ c)
    (ts : List Tile) : (c.foldl set_mine ts)[i]? = ts[i]? := by
  induction c generalizing ts with
  | nil => rfl
  | cons j c ih =>
    have hj : j ≠ i := fun e => h (e ▸ List.mem_cons_self j c)
    rw [List.foldl_cons, ih (fun hm => h (List.mem_cons_of_mem _ hm)),
      set_mine_getElem?_ne hj]

theorem mines_fold_getElem?_mem {c : List Nat} {i : Nat} (h : i ∈ c)
    (ts : List Tile) :
    (c.foldl set_mine ts)[i]? =
      (ts[i]?).map (fun t => { t with object := Object.Mine }) := by
  induction c generalizing ts with
  | nil => cases h
  | cons j c ih =>
    rw [List.foldl_cons]
    by_cases hic : i ∈ c
    · rw [ih hic]
      rcases eq_or_ne j i with rfl | hne
      · rw [set_mine_getElem?_self, Option.map_map]
        rfl
      · rw [set_mine_getElem?_ne hne]
    · have hij : i = j := by
        rcases List.mem_cons.mp h with e | hm
        · exact e
        · exact absurd hm hic
      subst hij
      rw [mines_fold_getElem?_not_mem hic, set_mine_getElem?_self]

theorem place_mines_params (b : Board) (c : List Nat) :
    (b.place_mines c).params = b.params := rfl

theorem place_mines_covered (b : Board) (c : List Nat) :
    (b.place_mines c).covered = b.covered := rfl

theorem place_mines_placed (b : Board) (c : List Nat) :
    (b.place_mines c).placed = b.placed := rfl

theorem place_mines_defeat (b : Board) (c : List Nat) :
    (b.place_mines c).defeat = b.defeat := rfl

theorem place_mines_scalars (b : Board) (c : List Nat) :
    (b.place_mines c).params = b.params ∧
    (b.place_mines c).covered = b.covered ∧
    (b.place_mines c).placed = b.placed ∧
    (b.place_mines c).defeat = b.defeat :=
  ⟨rfl, rfl, rfl, rfl⟩

theorem place_mines_length (b : Board) (c : List Nat) :
    (b.place_mines c).tiles.length = b.tiles.length :=
  mines_fold_length c b.tiles

theorem place_mines_getElem? (b : Board) (c : List Nat) (i : Nat) :
    (b.place_mines c).tiles[i]? =
      if i ∈ c then (b.tiles[i]?).map (fun t => { t with object := Object.Mine })
      else b.tiles[i]? := by
  by_cases h : i ∈ c
  · rw [if_pos h]
    exact mines_fold_getElem?_mem h b.tiles
  · rw [if_neg h]
    exact mines_fold_getElem?_not_mem h b.tiles

/-! ### `Board.new` characterization -/

theorem new_tiles_getElem? (p : Params) (i : Nat) :
    (Board.new p).tiles[i]? =
      if i < p.width * p.height then some Tile.new else none := by
  unfold Board.new
  exact List.getElem?_replicate

theorem new_length (p : Params) :
    (Board.new p).tiles.length = p.width * p.height := by
  unfold Board.new
  exact List.length_replicate _ _

/-- The tile vector after scattering mines on a fresh (all `Tile.new`)
tile vector, in closed form. -/
theorem fresh_place_mines_tiles {b : Board} {n : Nat}
    (hts : b.tiles = List.replicate n Tile.new) (c : List Nat) :
    (b.place_mines c).tiles =
      (List.range n).map
        (fun i => if i ∈ c then { Tile.new with object := Object.Mine } else Tile.new) := by
  apply List.ext_getElem?
  intro m
  rw [place_mines_getElem?, hts, List.getElem?_map]
  by_cases hn : m < n
  · rw [List.getElem?_range hn, List.getElem?_replicate, if_pos hn]
    by_cases hc : m ∈ c <;> simp [hc]
  · rw [List.getElem?_replicate, if_neg hn,
      List.getElem?_eq_none (by simpa using Nat.le_of_not_lt hn)]
    by_cases hc : m ∈ c <;> simp [hc]

/-! ### `mineCount` lemmas -/

theorem mineCount_congr {ts₁ ts₂ : List Tile}
    (h : ∀ i : Nat, (ts₁[i]?).map Tile.is_mine = (ts₂[i]?).map Tile.is_mine) :
    mineCount ts₁ = mineCount ts₂ := by
  induction ts₁ generalizing ts₂ with
  | nil =>
    cases ts₂ with
    | nil => rfl
    | cons t₂ l₂ => exact absurd (h 0) (by simp)
  | cons t₁ l₁ ih =>
    cases ts₂ with
    | nil => exact absurd (h 0) (by simp)
    | cons t₂ l₂ =>
      have h0 : t₁.is_mine = t₂.is_mine := by
        have := h 0
        simpa using this
      have ht : mineCount l₁ = mineCount l₂ := ih (fun i => by simpa using h (i + 1))
      unfold mineCount at *
      rw [List.filter_cons, List.filter_cons, h0]
      by_cases hm : t₂.is_mine = true <;> simp [hm, ht]

theorem length_filter_range_mem {c : List Nat} {n : Nat} (hnd : c.Nodup)
    (hsub : ∀ i ∈ c, i < n) :
    ((List.range n).filter (fun i => decide (i ∈ c))).length = c.length := by
  have h1 : ((List.range n).filter (fun i => decide (i ∈ c))).Nodup :=
    (List.nodup_range n).filter _
  have hperm : ((List.range n).filter (fun i => decide (i ∈ c))).Perm c := by
    apply List.perm_of_nodup_nodup_toFinset_eq h1 hnd
    ext a
    simp only [List.mem_toFinset, List.mem_filter, List.mem_range, decide_eq_true_eq]
    exact ⟨fun h => h.2, fun h => ⟨hsub a h, h⟩⟩
  exact hperm.length_eq

theorem length_filter_not_mem_singleton {n idx : Nat} (h : idx < n) :
    ((List.range n).filter (fun j => decide (j ∉ [idx]))).length = n - 1 := by
  have he : (List.range n).filter (fun j => decide (j ∉ [idx])) =
      (List.range n).erase idx := by
    rw [List.Nodup.erase_eq_filter (List.nodup_range n)]
    apply List.filter_congr
    intro j _
    by_cases hj : j = idx <;> simp [hj, List.mem_singleton]
  rw [he, List.length_erase_of_mem (List.mem_range.mpr h), List.length_range]

/-! ### `place_hints` lemmas -/

theorem place_hints_step_cases (b : Board) (x y : Nat) :
    b.place_hints_step x y = b ∨
    ∃ t : Tile, b.tiles[b.coords_to_index x y]? = some t ∧ t.is_mine = false ∧
      0 < b.nbr_mine_count x y ∧
      b.place_hints_step x y =
        { b with tiles := (b.tiles.set (b.coords_to_index x y) ({ t with object := Object.Hint (b.nbr_mine_count x y) })) } := by
  unfold Board.place_hints_step
  dsimp only
  cases ht : b.tiles[b.coords_to_index x y]? with
  | none => exact Or.inl rfl
  | some t =>
    by_cases hm : t.is_mine
    · simp [hm]
    · by_cases hc : 0 < b.nbr_mine_count x y
      · exact Or.inr ⟨t, rfl, by simpa using hm, hc, by simp [hm, hc]⟩
      · simp [hm, hc]

theorem place_hints_step_scalars (b : Board) (x y : Nat) :
    (b.place_hints_step x y).params = b.params ∧
    (b.place_hints_step x y).covered = b.covered ∧
    (b.place_hints_step x y).placed = b.placed ∧
    (b.place_hints_step x y).defeat = b.defeat := by
  rcases place_hints_step_cases b x y with h | ⟨t, _, _, _, h⟩
  · rw [h]
    exact ⟨rfl, rfl, rfl, rfl⟩
  · rw [h]
    exact ⟨rfl, rfl, rfl, rfl⟩

theorem place_hints_step_length (b : Board) (x y : Nat) :
    (b.place_hints_step x y).tiles.length = b.tiles.length := by
  rcases place_hints_step_cases b x y with h | ⟨t, _, _, _, h⟩
  · rw [h]
  · rw [h]
    exact List.length_set _ _ _

theorem place_hints_step_getElem?_ne (b : Board) (x y : Nat) {j : Nat}
    (hj : j ≠ b.coords_to_index x y) :
    (b.place_hints_step x y).tiles[j]? = b.tiles[j]? := by
  rcases place_hints_step_cases b x y with h | ⟨t, _, _, _, h⟩
  · rw [h]
  · rw [h]
    exact List.getElem?_set_ne (Ne.symm hj)

theorem place_hints_step_map_is_mine (b : Board) (x y : Nat) (j : Nat) :
    ((b.place_hints_step x y).tiles[j]?).map Tile.is_mine =
      (b.tiles[j]?).map Tile.is_mine := by
  rcases place_hints_step_cases b x y with h | ⟨t, ht, hm, _, h⟩
  · rw [h]
  rw [h]
  show ((b.tiles.set (b.coords_to_index x y)
      ({ t with object := Object.Hint (b.nbr_mine_count x y) }))[j]?).map Tile.is_mine =
    (b.tiles[j]?).map Tile.is_mine
  rcases eq_or_ne j (b.coords_to_index x y) with heq | hj
  · have hlt : b.coords_to_index x y < b.tiles.length := by
      rcases List.getElem?_eq_some.mp ht with ⟨hl, _⟩
      exact hl
    rw [heq, List.getElem?_set_self hlt, ht]
    show some false = some t.is_mine
    rw [hm]
  · rw [List.getElem?_set_ne (Ne.symm hj)]

theorem place_hints_step_map_cover (b : Board) (x y : Nat) (j : Nat) :
    ((b.place_hints_step x y).tiles[j]?).map Tile.cover =
      (b.tiles[j]?).map Tile.cover := by
  rcases place_hints_step_cases b x y with h | ⟨t, ht, hm, _, h⟩
  · rw [h]
  rw [h]
  show ((b.tiles.set (b.coords_to_index x y)
      ({ t with object := Object.Hint (b.nbr_mine_count x y) }))[j]?).map Tile.cover =
    (b.tiles[j]?).map Tile.cover
  rcases eq_or_ne j (b.coords_to_index x y) with heq | hj
  · have hlt : b.coords_to_index x y < b.tiles.length := by
      rcases List.getElem?_eq_some.mp ht with ⟨hl, _⟩
      exact hl
    rw [heq, List.getElem?_set_self hlt, ht]
    rfl
  · rw [List.getElem?_set_ne (Ne.symm hj)]

theorem hints_fold_nil (b : Board) : hints_fold b [] = b := rfl

theorem hints_fold_cons (b : Board) (p : Nat × Nat) (L : List (Nat × Nat)) :
    hints_fold b (p :: L) = hints_fold (b.place_hints_step p.fst p.snd) L := rfl

theorem hints_fold_append (b : Board) (L₁ L₂ : List (Nat × Nat)) :
    hints_fold b (L₁ ++ L₂) = hints_fold (hints_fold b L₁) L₂ :=
  List.foldl_append _ _ L₁ L₂

theorem hints_fold_params (b : Board) (L : List (Nat × Nat)) :
    (hints_fold b L).params = b.params := by
  induction L generalizing b with
  | nil => rfl
  | cons p L ih =>
    rw [hints_fold_cons, ih, (place_hints_step_scalars b p.fst p.snd).1]

theorem hints_fold_covered (b : Board) (L : List (Nat × Nat)) :
    (hints_fold b L).covered = b.covered := by
  induction L generalizing b with
  | nil => rfl
  | cons p L ih =>
    rw [hints_fold_cons, ih, (place_hints_step_scalars b p.fst p.snd).2.1]

theorem hints_fold_placed (b : Board) (L : List (Nat × Nat)) :
    (hints_fold b L).placed = b.placed := by
  induction L generalizing b with
  | nil => rfl
  | cons p L ih =>
    rw [hints_fold_cons, ih, (place_hints_step_scalars b p.fst p.snd).2.2.1]

theorem hints_fold_defeat (b : Board) (L : List (Nat × Nat)) :
    (hints_fold b L).defeat = b.defeat := by
  induction L generalizing b with
  | nil => rfl
  | cons p L ih =>
    rw [hints_fold_cons, ih, (place_hints_step_scalars b p.fst p.snd).2.2.2]

theorem hints_fold_length (b : Board) (L : List (Nat × Nat)) :
    (hints_fold b L).tiles.length = b.tiles.length := by
  induction L generalizing b with
  | nil => rfl
  | cons p L ih =>
    rw [hints_fold_cons, ih, place_hints_step_length]

theorem hints_fold_map_is_mine (b : Board) (L : List (Nat × Nat)) (j : Nat) :
    ((hints_fold b L).tiles[j]?).map Tile.is_mine =
      (b.tiles[j]?).map Tile.is_mine := by
  induction L generalizing b with
  | nil => rfl
  | cons p L ih =>
    rw [hints_fold_cons, ih, place_hints_step_map_is_mine]

theorem hints_fold_map_cover (b : Board) (L : List (Nat × Nat)) (j : Nat) :
    ((hints_fold b L).tiles[j]?).map Tile.cover =
      (b.tiles[j]?).map Tile.cover := by
  induction L generalizing b with
  | nil => rfl
  | cons p L ih =>
    rw [hints_fold_cons, ih, place_hints_step_map_cover]

theorem hints_fold_untouched (b : Board) (L : List (Nat × Nat)) {j : Nat}
    (h : ∀ p ∈ L, p.snd * b.params.width + p.fst ≠ j) :
    (hints_fold b L).tiles[j]? = b.tiles[j]? := by
  induction L generalizing b with
  | nil => rfl
  | cons p L ih =>
    rw [hints_fold_cons]
    have hW : (b.place_hints_step p.fst p.snd).params = b.params :=
      (place_hints_step_scalars b p.fst p.snd).1
    rw [ih _ (by rw [hW]; exact fun q hq => h q (List.mem_cons_of_mem _ hq))]
    exact place_hints_step_getElem?_ne b p.fst p.snd
      (Ne.symm (h p (List.mem_cons_self p L)))

/-! ### `gridCoords` lemmas -/

theorem mem_gridCoords {w h : Nat} {p : Nat × Nat} :
    p ∈ gridCoords w h ↔ p.fst < w ∧ p.snd < h := by
  unfold gridCoords
  simp only [List.mem_flatMap, List.mem_map, List.mem_range]
  constructor
  · rintro ⟨a, ha, c, hc, rfl⟩
    exact ⟨ha, hc⟩
  · rintro ⟨h1, h2⟩
    exact ⟨p.fst, h1, p.snd, h2, rfl⟩

theorem nodup_gridCoords (w h : Nat) : (gridCoords w h).Nodup := by
  unfold gridCoords
  rw [List.nodup_flatMap]
  refine ⟨fun a _ => ?_, ?_⟩
  · exact (List.nodup_range h).map (fun i j hij => congrArg Prod.snd hij)
  · refine List.Pairwise.imp ?_ (List.pairwise_lt_range w)
    intro a c hac
    rw [Function.onFun, List.disjoint_left]
    rintro q hq1 hq2
    rcases List.mem_map.mp hq1 with ⟨i, _, rfl⟩
    rcases List.mem_map.mp hq2 with ⟨j, _, he⟩
    exact absurd (congrArg Prod.fst he) (by simpa using Nat.ne_of_lt' hac)

/-! ### `nbr_mine_count` congruence -/

theorem neighbours_congr {b₁ b₂ : Board} (hp : b₁.params = b₂.params)
    (x y : Nat) : b₁.neighbours x y = b₂.neighbours x y := by
  unfold Board.neighbours
  rw [hp]

theorem mine_at_congr {b₁ b₂ : Board} (hp : b₁.params = b₂.params)
    (hm : ∀ j : Nat, (b₁.tiles[j]?).map Tile.is_mine = (b₂.tiles[j]?).map Tile.is_mine)
    (x y : Nat) : b₁.mine_at x y = b₂.mine_at x y := by
  unfold Board.mine_at Board.coords_to_index
  rw [hp]
  exact elim_congr_of_map_eq Tile.is_mine (hm _)

theorem nbr_mine_count_congr {b₁ b₂ : Board} (hp : b₁.params = b₂.params)
    (hm : ∀ j : Nat, (b₁.tiles[j]?).map Tile.is_mine = (b₂.tiles[j]?).map Tile.is_mine)
    (x y : Nat) : b₁.nbr_mine_count x y = b₂.nbr_mine_count x y := by
  unfold Board.nbr_mine_count
  rw [neighbours_congr hp]
  congr 1
  apply List.filter_congr
  intro p _
  exact mine_at_congr hp hm p.fst p.snd

theorem place_hints_step_getElem?_self (b : Board) (x y : Nat) (t : Tile)
    (ht : b.tiles[b.coords_to_index x y]? = some t) :
    (b.place_hints_step x y).tiles[b.coords_to_index x y]? =
      some (if t.is_mine = false ∧ 0 < b.nbr_mine_count x y
            then { t with object := Object.Hint (b.nbr_mine_count x y) }
            else t) := by
  have hlt : b.coords_to_index x y < b.tiles.length := by
    rcases List.getElem?_eq_some.mp ht with ⟨hl, _⟩
    exact hl
  unfold Board.place_hints_step
  dsimp only
  rw [ht]
  by_cases hm : t.is_mine
  · simp [hm, ht]
  · have hm' : t.is_mine = false := by simpa using hm
    by_cases hc : 0 < b.nbr_mine_count x y
    · simp [hm', hc, List.getElem?_set_self hlt]
    · simp [hm', hc, ht]

theorem gridCoords_decomp {w h x y : Nat} (hx : x < w) (hy : y < h) :
    ∃ L₁ L₂, gridCoords w h = L₁ ++ (x, y) :: L₂ ∧
      (x, y) ∉ L₁ ∧ (x, y) ∉ L₂ := by
  have hmem : (x, y) ∈ gridCoords w h := mem_gridCoords.mpr ⟨hx, hy⟩
  rcases List.append_of_mem hmem with ⟨L₁, L₂, hL⟩
  have hnd : (L₁ ++ (x, y) :: L₂).Nodup := hL ▸ nodup_gridCoords w h
  rcases List.nodup_append.mp hnd with ⟨h1, h2, hdisj⟩
  exact ⟨L₁, L₂, hL, fun hm => hdisj hm (List.mem_cons_self _ _),
    (List.nodup_cons.mp h2).1⟩

/-- The tile at an in-range coordinate after `place_hints`: a mine is left
alone; a non-mine tile becomes `Hint(count)` when its neighbouring-mine
count is positive and is left alone when the count is zero. -/
theorem place_hints_tile_at (b : Board) {x y : Nat}
    (hx : x < b.params.width) (hy : y < b.params.height)
    (t : Tile) (ht : b.tiles[b.coords_to_index x y]? = some t) :
    b.place_hints.tiles[b.coords_to_index x y]? =
      some (if t.is_mine = false ∧ 0 < b.nbr_mine_count x y
            then { t with object := Object.Hint (b.nbr_mine_count x y) }
            else t) := by
  rcases gridCoords_decomp hx hy with ⟨L₁, L₂, hL, hn₁, hn₂⟩
  have hsub : ∀ p : Nat × Nat, p ∈ L₁ ∨ p ∈ L₂ →
      p ∈ gridCoords b.params.width b.params.height := by
    intro p hp
    rw [hL]
    rcases hp with hp | hp
    · exact List.mem_append_left _ hp
    · exact List.mem_append_right _ (List.mem_cons_of_mem _ hp)
  have hne : ∀ p : Nat × Nat, p ∈ L₁ ∨ p ∈ L₂ →
      p.snd * b.params.width + p.fst ≠ b.coords_to_index x y := by
    intro p hp hidx
    have hpr := mem_gridCoords.mp (hsub p hp)
    have hxy := index_inj hpr.1 hpr.2 hx hy hidx
    have hpxy : p = (x, y) := Prod.ext hxy.1 hxy.2
    rcases hp with hp | hp
    · exact hn₁ (hpxy ▸ hp)
    · exact hn₂ (hpxy ▸ hp)
  unfold Board.place_hints
  rw [hL, hints_fold_append, hints_fold_cons]
  have hW : (hints_fold b L₁).params = b.params := hints_fold_params b L₁
  have hb₁t : (hints_fold b L₁).tiles[b.coords_to_index x y]? = some t := by
    rw [hints_fold_untouched b L₁ (fun p hp => hne p (Or.inl hp))]
    exact ht
  have hidx₁ : (hints_fold b L₁).coords_to_index x y = b.coords_to_index x y := by
    unfold Board.coords_to_index
    rw [hW]
  have hcnt : (hints_fold b L₁).nbr_mine_count x y = b.nbr_mine_count x y :=
    nbr_mine_count_congr hW (fun j => hints_fold_map_is_mine b L₁ j) x y
  have hstep := place_hints_step_getElem?_self (hints_fold b L₁) x y t
    (by rw [hidx₁]; exact hb₁t)
  rw [hidx₁, hcnt] at hstep
  have hW₂ : ((hints_fold b L₁).place_hints_step x y).params = b.params := by
    rw [(place_hints_step_scalars (hints_fold b L₁) x y).1, hW]
  have hfin := hints_fold_untouched ((hints_fold b L₁).place_hints_step x y) L₂
    (by rw [hW₂]; exact fun p hp => hne p (Or.inr hp))
  rw [hfin, hstep]

/-! ### `flood_uncover` lemmas -/

theorem ite_covered_parts (c : Prop) [Decidable c] (b : Board) (n : Nat) :
    (if c then { b with covered := n } else b).params = b.params ∧
    (if c then { b with covered := n } else b).placed = b.placed ∧
    (if c then { b with covered := n } else b).defeat = b.defeat ∧
    (if c then { b with covered := n } else b).tiles = b.tiles := by
  by_cases h : c <;> simp [h]

theorem mem_neighbours_index_lt {b : Board} {x y : Nat} {p : Nat × Nat}
    (h : p ∈ b.neighbours x y) :
    p.snd * b.params.width + p.fst < b.params.width * b.params.height := by
  unfold Board.neighbours at h
  rcases List.mem_filterMap.mp h with ⟨off, _, hoff⟩
  dsimp only at hoff
  by_cases hc : 0 ≤ (x : Int) + off.fst ∧ (x : Int) + off.fst < (b.params.width : Int) ∧
      0 ≤ (y : Int) + off.snd ∧ (y : Int) + off.snd < (b.params.height : Int)
  · rw [if_pos hc] at hoff
    cases hoff
    dsimp only
    have h1 : ((x : Int) + off.fst).toNat < b.params.width := by omega
    have h2 : ((y : Int) + off.snd).toNat < b.params.height := by omega
    exact index_lt h1 h2
  · rw [if_neg hc] at hoff
    cases hoff

theorem flood_go_preserves (fuel : Nat) :
    ∀ (b : Board) (q v : List (Nat × Nat)) (b' : Board),
      flood_go fuel b q v = some b' →
      b'.params = b.params ∧ b'.placed = b.placed ∧ b'.defeat = b.defeat ∧
      b'.tiles.length = b.tiles.length ∧
      ∀ j : Nat, (b'.tiles[j]?).map Tile.object = (b.tiles[j]?).map Tile.object := by
  induction fuel with
  | zero =>
    intro b q v b' h
    cases h
    exact ⟨rfl, rfl, rfl, rfl, fun j => rfl⟩
  | succ fuel ih =>
    intro b q v b' h
    cases q with
    | nil =>
      cases h
      exact ⟨rfl, rfl, rfl, rfl, fun j => rfl⟩
    | cons tile rest =>
      unfold flood_go at h
      split at h
      · exact ih b rest v b' h
      · dsimp only at h
        split at h
        · exact Option.noConfusion h
        · rename_i t hts
          split at h
          · split at h
            · split at h
              · rcases ih _ _ _ _ h with ⟨hp, hpl, hd, hlen, hobj⟩
                exact ⟨hp, hpl, hd, hlen.trans (List.length_set _ _ _),
                  fun j => (hobj j).trans (set_cover_object_map hts Cover.Down j)⟩
              · rcases ih _ _ _ _ h with ⟨hp, hpl, hd, hlen, hobj⟩
                exact ⟨hp, hpl, hd, hlen.trans (List.length_set _ _ _),
                  fun j => (hobj j).trans (set_cover_object_map hts Cover.Down j)⟩
            · split at h
              · rcases ih _ _ _ _ h with ⟨hp, hpl, hd, hlen, hobj⟩
                exact ⟨hp, hpl, hd, hlen.trans (List.length_set _ _ _),
                  fun j => (hobj j).trans (set_cover_object_map hts Cover.Down j)⟩
              · rcases ih _ _ _ _ h with ⟨hp, hpl, hd, hlen, hobj⟩
                exact ⟨hp, hpl, hd, hlen.trans (List.length_set _ _ _),
                  fun j => (hobj j).trans (set_cover_object_map hts Cover.Down j)⟩
          · exact ih _ _ _ _ h

theorem flood_go_isSome (fuel : Nat) :
    ∀ (b : Board) (q v : List (Nat × Nat)),
      b.tiles.length = b.params.width * b.params.height →
      (∀ p ∈ q, p.snd * b.params.width + p.fst < b.tiles.length) →
      (flood_go fuel b q v).isSome = true := by
  induction fuel with
  | zero =>
    intro b q v _ _
    rfl
  | succ fuel ih =>
    intro b q v hwf hq
    cases q with
    | nil => rfl
    | cons tile rest =>
      have hrest : ∀ p ∈ rest, p.snd * b.params.width + p.fst < b.tiles.length :=
        fun p hp => hq p (List.mem_cons_of_mem _ hp)
      have hidx : b.coords_to_index tile.fst tile.snd < b.tiles.length :=
        hq tile (List.mem_cons_self _ _)
      unfold flood_go
      split
      · exact ih b rest v hwf hrest
      · dsimp only
        split
        · rename_i hnone
          rw [List.getElem?_eq_none_iff] at hnone
          omega
        · rename_i t hts
          split
          · split
            · split
              · refine ih _ _ _ ?_ ?_
                · show (b.tiles.set (b.coords_to_index tile.fst tile.snd)
                      ({ t with cover := Cover.Down })).length =
                    b.params.width * b.params.height
                  rw [List.length_set]
                  exact hwf
                · intro p hp
                  show p.snd * b.params.width + p.fst <
                    (b.tiles.set (b.coords_to_index tile.fst tile.snd)
                      ({ t with cover := Cover.Down })).length
                  rw [List.length_set]
                  rcases List.mem_append.mp hp with hp | hp
                  · exact hrest p hp
                  · have hn := (List.mem_filter.mp hp).1
                    have := mem_neighbours_index_lt hn
                    rw [hwf]
                    exact this
              · refine ih _ _ _ ?_ ?_
                · show (b.tiles.set (b.coords_to_index tile.fst tile.snd)
                      ({ t with cover := Cover.Down })).length =
                    b.params.width * b.params.height
                  rw [List.length_set]
                  exact hwf
                · intro p hp
                  show p.snd * b.params.width + p.fst <
                    (b.tiles.set (b.coords_to_index tile.fst tile.snd)
                      ({ t with cover := Cover.Down })).length
                  rw [List.length_set]
                  rcases List.mem_append.mp hp with hp | hp
                  · exact hrest p hp
                  · have hn := (List.mem_filter.mp hp).1
                    have := mem_neighbours_index_lt hn
                    rw [hwf]
                    exact this
            · split
              · refine ih _ _ _ ?_ ?_
                · show (b.tiles.set (b.coords_to_index tile.fst tile.snd)
                      ({ t with cover := Cover.Down })).length =
                    b.params.width * b.params.height
                  rw [List.length_set]
                  exact hwf
                · intro p hp
                  show p.snd * b.params.width + p.fst <
                    (b.tiles.set (b.coords_to_index tile.fst tile.snd)
                      ({ t with cover := Cover.Down })).length
                  rw [List.length_set]
                  exact hrest p hp
              · refine ih _ _ _ ?_ ?_
                · show (b.tiles.set (b.coords_to_index tile.fst tile.snd)
                      ({ t with cover := Cover.Down })).length =
                    b.params.width * b.params.height
                  rw [List.length_set]
                  exact hwf
                · intro p hp
                  show p.snd * b.params.width + p.fst <
                    (b.tiles.set (b.coords_to_index tile.fst tile.snd)
                      ({ t with cover := Cover.Down })).length
                  rw [List.length_set]
                  exact hrest p hp
          · exact ih b rest (tile :: v) hwf hrest

theorem flood_uncover_preserves {b : Board} {x y : Nat} {b' : Board}
    (h : b.flood_uncover x y = some b') :
    b'.params = b.params ∧ b'.placed = b.placed ∧ b'.defeat = b.defeat ∧
    b'.tiles.length = b.tiles.length ∧
    ∀ j : Nat, (b'.tiles[j]?).map Tile.object = (b.tiles[j]?).map Tile.object :=
  flood_go_preserves _ b _ _ b' h

theorem flood_uncover_isSome (b : Board) (x y : Nat)
    (hwf : b.tiles.length = b.params.width * b.params.height)
    (hxy : y * b.params.width + x < b.tiles.length) :
    (b.flood_uncover x y).isSome = true := by
  apply flood_go_isSome _ b _ _ hwf
  intro p hp
  rw [List.mem_singleton.mp hp]
  exact hxy

/-! ### `place_hints` corollaries and `handle_mark` equations -/

theorem place_hints_params (b : Board) : b.place_hints.params = b.params :=
  hints_fold_params b _

theorem place_hints_length (b : Board) :
    b.place_hints.tiles.length = b.tiles.length :=
  hints_fold_length b _

theorem place_hints_covered (b : Board) : b.place_hints.covered = b.covered :=
  hints_fold_covered b _

theorem place_hints_placed (b : Board) : b.place_hints.placed = b.placed :=
  hints_fold_placed b _

theorem place_hints_defeat (b : Board) : b.place_hints.defeat = b.defeat :=
  hints_fold_defeat b _

theorem place_hints_map_is_mine (b : Board) (j : Nat) :
    (b.place_hints.tiles[j]?).map Tile.is_mine = (b.tiles[j]?).map Tile.is_mine :=
  hints_fold_map_is_mine b _ j

theorem place_hints_map_cover (b : Board) (j : Nat) :
    (b.place_hints.tiles[j]?).map Tile.cover = (b.tiles[j]?).map Tile.cover :=
  hints_fold_map_cover b _ j

theorem cycle_cycle_cycle (m : Mark) : m.cycle.cycle.cycle = m := by
  cases m <;> rfl

theorem tile_cover_eta (t : Tile) (c : Cover) (h : t.cover = c) :
    ({ t with cover := c } : Tile) = t := by
  cases t with
  | mk cov obj =>
    cases h
    rfl

theorem handle_mark_up_eq (b : Board) (x y : Nat) (t : Tile) (m : Mark)
    (ht : b.tiles[b.coords_to_index x y]? = some t) (hc : t.cover = Cover.Up m) :
    b.handle_mark x y =
      some { b with tiles := (b.tiles.set (b.coords_to_index x y) ({ t with cover := Cover.Up m.cycle })) } := by
  unfold Board.handle_mark
  dsimp only
  rw [ht]
  dsimp only
  rw [hc]

theorem handle_mark_down_eq (b : Board) (x y : Nat) (t : Tile)
    (ht : b.tiles[b.coords_to_index x y]? = some t) (hc : t.cover = Cover.Down) :
    b.handle_mark x y = some b := by
  unfold Board.handle_mark
  dsimp only
  rw [ht]
  dsimp only
  rw [hc]

/-! ### Claim theorems -/

/-- Claim C5, counterexample: constructing a board whose mine count (5) is
at least the total tile count minus 1 (2*1-1 = 1) is not rejected —
`Board::new` returns an ordinary fresh unplaced board, with no failure of
any kind (its Rust signature `fn new(Params) -> Self` cannot even signal
one). -/
theorem new_accepts_overfull_params :
    2 * 1 - 1 ≤ 5 ∧
    Board.new { width := 2, height := 1, mines := 5 } =
      { tiles := List.replicate 2 Tile.new, covered := 2,
        params := { width := 2, height := 1, mines := 5 },
        placed := false, defeat := false } :=
  ⟨by omega, rfl⟩

/-- Claim C5, amended: board construction performs no validation at all:
for every parameter set, including those with `mines ≥ width*height - 1`,
`Board::new` succeeds and returns the fresh all-covered all-blank board;
the unsatisfiable-placement configuration is not rejected at construction
time (nor anywhere else). -/
theorem new_never_rejects (p : Params) :
    Board.new p =
      { tiles := List.replicate (p.width * p.height) Tile.new,
        covered := p.width * p.height, params := p,
        placed := false, defeat := false } := rfl

/-- Claim C7, counterexample: on a fresh 3x3 board the coordinate (3, 0)
is out of range (`x = width`), yet `tile` returns a tile without
panicking, and `handle_mark` silently mutates the aliased tile (0, 1)
(flat index 3 wraps to the next row). -/
theorem out_of_range_tile_no_panic :
    (Board.new { width := 3, height := 3, mines := 0 }).params.width ≤ 3 ∧
    (Board.new { width := 3, height := 3, mines := 0 }).tile 3 0 = some Tile.new ∧
    ((Board.new { width := 3, height := 3, mines := 0 }).handle_mark 3 0).map
        (fun b => b.tile 0 1) =
      some (some { cover := Cover.Up Mark.Flag, object := Object.Blank }) := by
  decide

/-- Claim C9: for every board and in-range coordinate, `handle_mark`
cycles a covered tile's mark through the fixed order
None → Flag → Unsure → None, three consecutive calls restore the board
exactly, and a call on an uncovered (`Down`) tile has no effect. -/
theorem handle_mark_cycles (b : Board) (x y : Nat) (t : Tile)
    (ht : b.tiles[b.coords_to_index x y]? = some t) :
    Mark.None.cycle = Mark.Flag ∧ Mark.Flag.cycle = Mark.Unsure ∧
    Mark.Unsure.cycle = Mark.None ∧
    (∀ m : Mark, t.cover = Cover.Up m →
      b.handle_mark x y =
        some { b with tiles := (b.tiles.set (b.coords_to_index x y) ({ t with cover := Cover.Up m.cycle })) }) ∧
    (t.cover = Cover.Down → b.handle_mark x y = some b) ∧
    ((b.handle_mark x y).bind (fun b₁ => b₁.handle_mark x y)).bind
      (fun b₂ => b₂.handle_mark x y) = some b := by
  rcases List.getElem?_eq_some.mp ht with ⟨hlt, _⟩
  refine ⟨rfl, rfl, rfl, fun m hm => handle_mark_up_eq b x y t m ht hm,
    fun hm => handle_mark_down_eq b x y t ht hm, ?_⟩
  cases hcov : t.cover with
  | Down =>
    rw [handle_mark_down_eq b x y t ht hcov]
    show (b.handle_mark x y).bind (fun b₂ => b₂.handle_mark x y) = some b
    rw [handle_mark_down_eq b x y t ht hcov]
    show b.handle_mark x y = some b
    exact handle_mark_down_eq b x y t ht hcov
  | Up m =>
    have h1 := handle_mark_up_eq b x y t m ht hcov
    have hlt2 : b.coords_to_index x y <
        (b.tiles.set (b.coords_to_index x y) ({ t with cover := Cover.Up m.cycle })).length := by
      rw [List.length_set]
      exact hlt
    have h2 := handle_mark_up_eq
      { b with tiles := (b.tiles.set (b.coords_to_index x y) ({ t with cover := Cover.Up m.cycle })) }
      x y ({ t with cover := Cover.Up m.cycle }) m.cycle
      (List.getElem?_set_self hlt) rfl
    have h3 := handle_mark_up_eq
      { b with tiles := ((b.tiles.set (b.coords_to_index x y) ({ t with cover := Cover.Up m.cycle })).set (b.coords_to_index x y) ({ t with cover := Cover.Up m.cycle.cycle })) }
      x y ({ t with cover := Cover.Up m.cycle.cycle }) m.cycle.cycle
      (List.getElem?_set_self hlt2) rfl
    rw [h1]
    show (({ b with tiles := (b.tiles.set (b.coords_to_index x y) ({ t with cover := Cover.Up m.cycle })) } : Board).handle_mark x y).bind (fun b₂ => b₂.handle_mark x y) = some b
    rw [h2]
    show ({ b with tiles := ((b.tiles.set (b.coords_to_index x y) ({ t with cover := Cover.Up m.cycle })).set (b.coords_to_index x y) ({ t with cover := Cover.Up m.cycle.cycle })) } : Board).handle_mark x y = some b
    rw [h3]
    show some ({ b with tiles := (((b.tiles.set (b.coords_to_index x y) ({ t with cover := Cover.Up m.cycle })).set (b.coords_to_index x y) ({ t with cover := Cover.Up m.cycle.cycle })).set (b.coords_to_index x y) ({ t with cover := Cover.Up m.cycle.cycle.cycle })) } : Board) = some b
    rw [List.set_set, List.set_set, cycle_cycle_cycle m,
      tile_cover_eta t (Cover.Up m) hcov, set_getElem?_id ht]

/-- Claim C10: `handle_mark` changes at most the mark of the targeted
tile — every other tile is untouched, no object changes, no cover moves
between Up and Down, and the covered counter, placed flag, defeat flag,
`is_victory` and `is_defeat` are all unchanged. -/
theorem handle_mark_frame (b : Board) (x y : Nat) (t : Tile)
    (ht : b.tiles[b.coords_to_index x y]? = some t) :
    ∃ b', b.handle_mark x y = some b' ∧
      b'.covered = b.covered ∧ b'.placed = b.placed ∧ b'.defeat = b.defeat ∧
      b'.params = b.params ∧ b'.is_victory = b.is_victory ∧ b'.is_defeat = b.is_defeat ∧
      (∀ j : Nat, j ≠ b.coords_to_index x y → b'.tiles[j]? = b.tiles[j]?) ∧
      (∀ j : Nat, (b'.tiles[j]?).map Tile.object = (b.tiles[j]?).map Tile.object) ∧
      (∀ j : Nat, ∀ u : Tile, b'.tiles[j]? = some u →
        ∃ u₀ : Tile, b.tiles[j]? = some u₀ ∧
          (u.cover = Cover.Down ↔ u₀.cover = Cover.Down)) := by
  rcases List.getElem?_eq_some.mp ht with ⟨hlt, _⟩
  cases hcov : t.cover with
  | Down =>
    refine ⟨b, handle_mark_down_eq b x y t ht hcov, rfl, rfl, rfl, rfl, rfl, rfl,
      fun j _ => rfl, fun j => rfl, fun j u hu => ⟨u, hu, Iff.rfl⟩⟩
  | Up m =>
    refine ⟨_, handle_mark_up_eq b x y t m ht hcov, rfl, rfl, rfl, rfl, rfl, rfl,
      ?_, ?_, ?_⟩
    · intro j hj
      exact List.getElem?_set_ne (Ne.symm hj)
    · intro j
      rcases eq_or_ne j (b.coords_to_index x y) with heq | hne
      · show ((b.tiles.set (b.coords_to_index x y) ({ t with cover := Cover.Up m.cycle }))[j]?).map Tile.object = (b.tiles[j]?).map Tile.object
        rw [heq, List.getElem?_set_self hlt, ht]
        rfl
      · show ((b.tiles.set (b.coords_to_index x y) ({ t with cover := Cover.Up m.cycle }))[j]?).map Tile.object = (b.tiles[j]?).map Tile.object
        rw [List.getElem?_set_ne (Ne.symm hne)]
    · intro j u hu
      rcases eq_or_ne j (b.coords_to_index x y) with heq | hne
      · subst heq
        have hu' : ((b.tiles.set (b.coords_to_index x y) ({ t with cover := Cover.Up m.cycle }))[b.coords_to_index x y]?) = some u := hu
        rw [List.getElem?_set_self hlt] at hu'
        cases hu'
        refine ⟨t, ht, ?_⟩
        constructor
        · intro hd
          exact absurd hd (by simp)
        · intro hd
          rw [hcov] at hd
          exact absurd hd (by simp)
      · have hu' : b.tiles[j]? = some u := by
          rw [show b.tiles[j]? = ((b.tiles.set (b.coords_to_index x y) ({ t with cover := Cover.Up m.cycle }))[j]?) from (List.getElem?_set_ne (Ne.symm hne)).symm]
          exact hu
        exact ⟨u, hu', Iff.rfl⟩

/-- Claim C8, counterexample: on a fresh (unplaced) 2x1/1 board, flag
(0, 0) and then call `handle_uncover(0, 0)` with the legitimate draw [1].
The cover of no tile changes, but the board is NOT left unchanged: the
call runs first-click placement before inspecting the flag, so the placed
flag flips to true and tile (1, 0) acquires a Mine object. -/
theorem flagged_uncover_on_unplaced_places_mines :
    chooseSpec 2 [0] 1 [1] ∧
    ((Board.new { width := 2, height := 1, mines := 1 }).handle_mark 0 0).map
        (fun b => (b.placed, (b.tile 0 0).map Tile.cover, (b.tile 1 0).map Tile.object)) =
      some (false, some (Cover.Up Mark.Flag), some Object.Blank) ∧
    (((Board.new { width := 2, height := 1, mines := 1 }).handle_mark 0 0).bind
        (fun b => b.handle_uncover 0 0 [1])).map
        (fun b => (b.placed, (b.tile 1 0).map Tile.object)) =
      some (true, some Object.Mine) := by
  decide

/-- Claim C8, amended: on a board whose placement has already happened
(`placed = true`), `handle_uncover` on an in-range flagged tile returns
the board exactly unchanged; on an unplaced board the same call still
performs first-click mine/hint placement and sets the placed flag before
the flag check blocks the uncover, so the claim holds only for placed
boards. -/
theorem flagged_uncover_noop_when_placed (b : Board) (x y : Nat)
    (chosen : List Nat) (t : Tile) (hp : b.placed = true)
    (ht : b.tiles[b.coords_to_index x y]? = some t)
    (hc : t.cover = Cover.Up Mark.Flag) :
    b.handle_uncover x y chosen = some b := by
  unfold Board.handle_uncover
  dsimp only
  rw [hp]
  rw [if_pos rfl]
  rw [ht]
  dsimp only
  rw [hc]
  dsimp only
  rw [if_pos rfl]

/-- Witness for the amended C8 theorem at a concrete placed board with a
flagged covered tile. -/
theorem flagged_uncover_noop_when_placed_witness :
    ({ tiles := [{ cover := Cover.Up Mark.Flag, object := Object.Blank }],
       covered := 1, params := { width := 1, height := 1, mines := 0 },
       placed := true, defeat := false } : Board).placed = true ∧
    ({ tiles := [{ cover := Cover.Up Mark.Flag, object := Object.Blank }],
       covered := 1, params := { width := 1, height := 1, mines := 0 },
       placed := true, defeat := false } : Board).handle_uncover 0 0 [] =
      some { tiles := [{ cover := Cover.Up Mark.Flag, object := Object.Blank }],
             covered := 1, params := { width := 1, height := 1, mines := 0 },
             placed := true, defeat := false } :=
  ⟨rfl, flagged_uncover_noop_when_placed
    { tiles := [{ cover := Cover.Up Mark.Flag, object := Object.Blank }],
      covered := 1, params := { width := 1, height := 1, mines := 0 },
      placed := true, defeat := false }
    0 0 [] { cover := Cover.Up Mark.Flag, object := Object.Blank } rfl rfl rfl⟩

/-- Claim C6, counterexample: drive a 3x1/1 board (mine drawn at index 2)
to defeat by uncovering (0, 0) and then the mine at (2, 0); tile (1, 0) is
still covered and `is_defeat` is true. A further `handle_uncover(1, 0)` is
not a no-op: it flips that tile's cover to Down. -/
theorem uncover_after_defeat_changes_board :
    chooseSpec 3 [0] 1 [2] ∧
    (((Board.new { width := 3, height := 1, mines := 1 }).handle_uncover 0 0 [2]).bind
        (fun b => b.handle_uncover 2 0 [])).map
        (fun b => (b.is_defeat, (b.tile 1 0).map Tile.cover)) =
      some (true, some (Cover.Up Mark.None)) ∧
    ((((Board.new { width := 3, height := 1, mines := 1 }).handle_uncover 0 0 [2]).bind
        (fun b => b.handle_uncover 2 0 [])).bind
        (fun b => b.handle_uncover 1 0 [])).map
        (fun b => (b.tile 1 0).map Tile.cover) =
      some (some Cover.Down) := by
  decide

/-- Claim C6, amended: once the defeat flag is set it is permanent — no
subsequent `handle_uncover` call ever resets it, so `is_defeat` stays
true — but such calls are not no-ops: they can still uncover tiles and
change the covered counter (see the counterexample). -/
theorem handle_uncover_keeps_defeat (b : Board) (x y : Nat) (chosen : List Nat)
    (b' : Board) (hd : b.defeat = true)
    (h : b.handle_uncover x y chosen = some b') : b'.is_defeat = true := by
  unfold Board.handle_uncover at h
  dsimp only at h
  repeat' split at h
  all_goals first
    | exact Option.noConfusion h
    | (cases h
       simp only [Board.is_defeat, place_hints_defeat, place_mines_defeat, hd])
    | (rcases flood_uncover_preserves h with ⟨_, _, hdf, _, _⟩
       show b'.defeat = true
       rw [hdf]
       simp only [place_hints_defeat, place_mines_defeat, hd])

/-- Witness for the amended C6 theorem at a concrete defeated board. -/
theorem handle_uncover_keeps_defeat_witness :
    ({ tiles := [{ cover := Cover.Down, object := Object.Blank }],
       covered := 0, params := { width := 1, height := 1, mines := 0 },
       placed := true, defeat := true } : Board).defeat = true ∧
    ({ tiles := [{ cover := Cover.Down, object := Object.Blank }],
       covered := 0, params := { width := 1, height := 1, mines := 0 },
       placed := true, defeat := true } : Board).is_defeat = true :=
  ⟨rfl, handle_uncover_keeps_defeat
    { tiles := [{ cover := Cover.Down, object := Object.Blank }],
      covered := 0, params := { width := 1, height := 1, mines := 0 },
      placed := true, defeat := true }
    0 0 []
    { tiles := [{ cover := Cover.Down, object := Object.Blank }],
      covered := 0, params := { width := 1, height := 1, mines := 0 },
      placed := true, defeat := true }
    rfl (by decide)⟩

/-- Claim C1: `is_victory` consults only `covered == mines` and ignores
the defeat flag, contradicting the spec. On a 3x1/1 board (mine drawn at
index 2), uncover (0, 0) and then the mine at (2, 0): the mine uncover
decrements the covered counter to the mine count, so `is_victory` returns
true even though `is_defeat` is true and the non-mine tile (1, 0) is still
covered — the claimed equivalence fails in both directions. -/
theorem is_victory_true_despite_defeat :
    chooseSpec 3 [0] 1 [2] ∧
    (((Board.new { width := 3, height := 1, mines := 1 }).handle_uncover 0 0 [2]).bind
        (fun b => b.handle_uncover 2 0 [])).map
        (fun b => (b.is_victory, b.is_defeat, b.tile 1 0)) =
      some (true, true, some { cover := Cover.Up Mark.None, object := Object.Hint 1 }) := by
  decide

/-- Claim C2: the flood reveal never spreads. `handle_uncover` sets the
clicked tile's cover to Down before calling `flood_uncover`, whose queue
is seeded with that same origin; the origin immediately fails the
`is_uncoverable` check, so nothing is enqueued and no further tile is
uncovered. On a mine-free 3x1 board, uncovering the Blank at (0, 0)
leaves the adjacent uncoverable Blank tiles (1, 0) and (2, 0) covered,
contradicting the claimed region reveal. -/
theorem flood_uncover_reveals_nothing :
    chooseSpec 3 [0] 0 [] ∧
    ((Board.new { width := 3, height := 1, mines := 0 }).handle_uncover 0 0 []).map
        (fun b => ((b.tile 0 0).map Tile.cover, b.tile 1 0, b.tile 2 0)) =
      some (some Cover.Down,
        some { cover := Cover.Up Mark.None, object := Object.Blank },
        some { cover := Cover.Up Mark.None, object := Object.Blank }) := by
  decide

/-- Witness for C9 at a concrete fresh 1x1 board. -/
theorem handle_mark_cycles_witness :
    (Board.new { width := 1, height := 1, mines := 0 }).tiles[(Board.new { width := 1, height := 1, mines := 0 }).coords_to_index 0 0]? = some Tile.new ∧
    (((Board.new { width := 1, height := 1, mines := 0 }).handle_mark 0 0).bind
        (fun b₁ => b₁.handle_mark 0 0)).bind
      (fun b₂ => b₂.handle_mark 0 0) =
      some (Board.new { width := 1, height := 1, mines := 0 }) :=
  ⟨by decide,
    (handle_mark_cycles (Board.new { width := 1, height := 1, mines := 0 })
      0 0 Tile.new (by decide)).2.2.2.2.2⟩

/-- Witness for C10 at a concrete fresh 2x1 board. -/
theorem handle_mark_frame_witness :
    (Board.new { width := 2, height := 1, mines := 0 }).tiles[(Board.new { width := 2, height := 1, mines := 0 }).coords_to_index 1 0]? = some Tile.new ∧
    ∃ b', (Board.new { width := 2, height := 1, mines := 0 }).handle_mark 1 0 = some b' ∧
      b'.covered = (Board.new { width := 2, height := 1, mines := 0 }).covered ∧
      b'.placed = (Board.new { width := 2, height := 1, mines := 0 }).placed ∧
      b'.defeat = (Board.new { width := 2, height := 1, mines := 0 }).defeat ∧
      b'.params = (Board.new { width := 2, height := 1, mines := 0 }).params ∧
      b'.is_victory = (Board.new { width := 2, height := 1, mines := 0 }).is_victory ∧
      b'.is_defeat = (Board.new { width := 2, height := 1, mines := 0 }).is_defeat ∧
      (∀ j : Nat, j ≠ (Board.new { width := 2, height := 1, mines := 0 }).coords_to_index 1 0 →
        b'.tiles[j]? = (Board.new { width := 2, height := 1, mines := 0 }).tiles[j]?) ∧
      (∀ j : Nat, (b'.tiles[j]?).map Tile.object =
        ((Board.new { width := 2, height := 1, mines := 0 }).tiles[j]?).map Tile.object) ∧
      (∀ j : Nat, ∀ u : Tile, b'.tiles[j]? = some u →
        ∃ u₀ : Tile, (Board.new { width := 2, height := 1, mines := 0 }).tiles[j]? = some u₀ ∧
          (u.cover = Cover.Down ↔ u₀.cover = Cover.Down)) :=
  ⟨by decide,
    handle_mark_frame (Board.new { width := 2, height := 1, mines := 0 })
      1 0 Tile.new (by decide)⟩

/-! ### Out-of-range behaviour -/

theorem uncover_board_length (b : Board) (chosen : List Nat) :
    (if b.placed = true then b
     else (({ b with placed := true }).place_mines chosen).place_hints).tiles.length =
      b.tiles.length := by
  by_cases hp : b.placed = true
  · rw [if_pos hp]
  · rw [if_neg hp, place_hints_length, place_mines_length]

theorem uncover_board_params (b : Board) (chosen : List Nat) :
    (if b.placed = true then b
     else (({ b with placed := true }).place_mines chosen).place_hints).params =
      b.params := by
  by_cases hp : b.placed = true
  · rw [if_pos hp]
  · rw [if_neg hp, place_hints_params, place_mines_params]

theorem handle_mark_none_iff (b : Board) (x y : Nat) :
    b.handle_mark x y = none ↔ b.tiles.length ≤ b.coords_to_index x y := by
  unfold Board.handle_mark
  dsimp only
  cases hts : b.tiles[b.coords_to_index x y]? with
  | none =>
    exact iff_of_true rfl (List.getElem?_eq_none_iff.mp hts)
  | some t =>
    rcases List.getElem?_eq_some.mp hts with ⟨hlt, _⟩
    apply iff_of_false
    · dsimp only
      cases hc : t.cover with
      | Up m => simp
      | Down => simp
    · omega

theorem handle_uncover_oob_none (b : Board) (x y : Nat) (chosen : List Nat)
    (hlen : b.tiles.length ≤ b.coords_to_index x y) :
    b.handle_uncover x y chosen = none := by
  have hlen1 := uncover_board_length b chosen
  unfold Board.handle_uncover
  dsimp only
  rw [List.getElem?_eq_none (by rw [hlen1]; exact hlen)]

theorem handle_uncover_isSome (b : Board) (x y : Nat) (chosen : List Nat)
    (hwf : b.tiles.length = b.params.width * b.params.height)
    (hlt : b.coords_to_index x y < b.tiles.length) :
    (b.handle_uncover x y chosen).isSome = true := by
  unfold Board.handle_uncover
  dsimp only
  by_cases hp : b.placed = true
  · simp only [if_pos hp]
    cases hts : b.tiles[b.coords_to_index x y]? with
    | none =>
      have := List.getElem?_eq_none_iff.mp hts
      omega
    | some t =>
      dsimp only
      cases hc : t.cover with
      | Down => rfl
      | Up m =>
        by_cases hm : m = Mark.Flag
        · simp only [if_pos hm]
          rfl
        · simp only [if_neg hm]
          cases ho : t.object with
          | Mine => rfl
          | Hint n => rfl
          | Blank =>
            dsimp only
            split
            · apply flood_uncover_isSome
              · show (b.tiles.set (b.coords_to_index x y) ({ cover := Cover.Down, object := Object.Blank } : Tile)).length =
                  b.params.width * b.params.height
                rw [List.length_set]
                exact hwf
              · show y * b.params.width + x <
                  (b.tiles.set (b.coords_to_index x y) ({ cover := Cover.Down, object := Object.Blank } : Tile)).length
                rw [List.length_set]
                exact hlt
            · apply flood_uncover_isSome
              · show (b.tiles.set (b.coords_to_index x y) ({ cover := Cover.Down, object := Object.Blank } : Tile)).length =
                  b.params.width * b.params.height
                rw [List.length_set]
                exact hwf
              · show y * b.params.width + x <
                  (b.tiles.set (b.coords_to_index x y) ({ cover := Cover.Down, object := Object.Blank } : Tile)).length
                rw [List.length_set]
                exact hlt
  · simp only [if_neg hp]
    have hlenC : ((({ b with placed := true }).place_mines chosen).place_hints).tiles.length =
        b.tiles.length := by
      rw [place_hints_length, place_mines_length]
    have hparC : ((({ b with placed := true }).place_mines chosen).place_hints).params =
        b.params := by
      rw [place_hints_params, place_mines_params]
    cases hts : ((({ b with placed := true }).place_mines chosen).place_hints).tiles[b.coords_to_index x y]? with
    | none =>
      have := List.getElem?_eq_none_iff.mp hts
      rw [hlenC] at this
      omega
    | some t =>
      dsimp only
      cases hc : t.cover with
      | Down => rfl
      | Up m =>
        by_cases hm : m = Mark.Flag
        · simp only [if_pos hm]
          rfl
        · simp only [if_neg hm]
          cases ho : t.object with
          | Mine => rfl
          | Hint n => rfl
          | Blank =>
            dsimp only
            split
            · apply flood_uncover_isSome
              · show (((({ b with placed := true }).place_mines chosen).place_hints).tiles.set (b.coords_to_index x y) ({ cover := Cover.Down, object := Object.Blank } : Tile)).length =
                  ((({ b with placed := true }).place_mines chosen).place_hints).params.width *
                    ((({ b with placed := true }).place_mines chosen).place_hints).params.height
                rw [List.length_set, hlenC, hwf, hparC]
              · show y * ((({ b with placed := true }).place_mines chosen).place_hints).params.width + x <
                  (((({ b with placed := true }).place_mines chosen).place_hints).tiles.set (b.coords_to_index x y) ({ cover := Cover.Down, object := Object.Blank } : Tile)).length
                rw [List.length_set, hlenC, hparC]
                exact hlt
            · apply flood_uncover_isSome
              · show (((({ b with placed := true }).place_mines chosen).place_hints).tiles.set (b.coords_to_index x y) ({ cover := Cover.Down, object := Object.Blank } : Tile)).length =
                  ((({ b with placed := true }).place_mines chosen).place_hints).params.width *
                    ((({ b with placed := true }).place_mines chosen).place_hints).params.height
                rw [List.length_set, hlenC, hwf, hparC]
              · show y * ((({ b with placed := true }).place_mines chosen).place_hints).params.width + x <
                  (((({ b with placed := true }).place_mines chosen).place_hints).tiles.set (b.coords_to_index x y) ({ cover := Cover.Down, object := Object.Blank } : Tile)).length
                rw [List.length_set, hlenC, hparC]
                exact hlt

/-- Claim C7, amended: the coordinate-taking methods panic exactly when
the flattened index `y * width + x` falls outside the tile vector; an
out-of-range coordinate pair whose flattened index is still within the
vector (e.g. `x ≥ width` with small `y`) is silently aliased to the tile
at that index instead of failing — see the counterexample. -/
theorem coordinate_methods_panic_iff (b : Board) (x y : Nat)
    (chosen : List Nat)
    (hwf : b.tiles.length = b.params.width * b.params.height) :
    (b.tile x y = none ↔ b.tiles.length ≤ b.coords_to_index x y) ∧
    (b.handle_mark x y = none ↔ b.tiles.length ≤ b.coords_to_index x y) ∧
    (b.handle_uncover x y chosen = none ↔ b.tiles.length ≤ b.coords_to_index x y) := by
  refine ⟨List.getElem?_eq_none_iff, handle_mark_none_iff b x y, ?_, ?_⟩
  · intro hnone
    by_contra hcon
    have hlt : b.coords_to_index x y < b.tiles.length := by omega
    have hs := handle_uncover_isSome b x y chosen hwf hlt
    rw [hnone] at hs
    exact Bool.noConfusion hs
  · exact handle_uncover_oob_none b x y chosen

/-- Witness for the amended C7 theorem at a concrete board and a
coordinate whose flattened index overflows. -/
theorem coordinate_methods_panic_iff_witness :
    (Board.new { width := 3, height := 3, mines := 0 }).tiles.length =
      (Board.new { width := 3, height := 3, mines := 0 }).params.width *
        (Board.new { width := 3, height := 3, mines := 0 }).params.height ∧
    ((Board.new { width := 3, height := 3, mines := 0 }).tile 9 0 = none ↔
      (Board.new { width := 3, height := 3, mines := 0 }).tiles.length ≤
        (Board.new { width := 3, height := 3, mines := 0 }).coords_to_index 9 0) ∧
    ((Board.new { width := 3, height := 3, mines := 0 }).handle_mark 9 0 = none ↔
      (Board.new { width := 3, height := 3, mines := 0 }).tiles.length ≤
        (Board.new { width := 3, height := 3, mines := 0 }).coords_to_index 9 0) ∧
    ((Board.new { width := 3, height := 3, mines := 0 }).handle_uncover 9 0 [] = none ↔
      (Board.new { width := 3, height := 3, mines := 0 }).tiles.length ≤
        (Board.new { width := 3, height := 3, mines := 0 }).coords_to_index 9 0) :=
  ⟨by decide,
    coordinate_methods_panic_iff (Board.new { width := 3, height := 3, mines := 0 })
      9 0 [] (by decide)⟩

/-! ### Object/mine helpers -/

theorem tile_is_mine_of_object_mine (u : Tile) (h : u.object = Object.Mine) :
    u.is_mine = true := by
  unfold Tile.is_mine
  rw [h]

theorem tile_is_mine_false_of_blank (u : Tile) (h : u.object = Object.Blank) :
    u.is_mine = false := by
  unfold Tile.is_mine
  rw [h]

theorem map_is_mine_of_map_object {o₁ o₂ : Option Tile}
    (h : o₁.map Tile.object = o₂.map Tile.object) :
    o₁.map Tile.is_mine = o₂.map Tile.is_mine := by
  cases o₁ with
  | none =>
    cases o₂ with
    | none => rfl
    | some u => exact absurd h (by simp)
  | some u =>
    cases o₂ with
    | none => exact absurd h (by simp)
    | some u₂ =>
      have ho : u.object = u₂.object := by simpa using h
      show some u.is_mine = some u₂.is_mine
      unfold Tile.is_mine
      rw [ho]

/-- Claim C4: after placement (a board whose tiles are all Blank or Mine,
as `place_mines` leaves them), `place_hints` gives every non-mine tile
`Hint(n)` exactly when its in-bounds 8-neighbour mine count `n` is
positive, and leaves it Blank exactly when that count is zero. -/
theorem place_hints_counts_correct (b : Board) (x y : Nat)
    (hwf : b.tiles.length = b.params.width * b.params.height)
    (hobj : ∀ u ∈ b.tiles, u.object = Object.Blank ∨ u.object = Object.Mine)
    (hx : x < b.params.width) (hy : y < b.params.height) :
    ∃ t, b.place_hints.tile x y = some t ∧
      (t.is_mine = false →
        (0 < b.place_hints.nbr_mine_count x y →
          t.object = Object.Hint (b.place_hints.nbr_mine_count x y)) ∧
        (t.object = Object.Blank ↔ b.place_hints.nbr_mine_count x y = 0)) := by
  have hlt : b.coords_to_index x y < b.tiles.length := by
    rw [hwf]
    exact index_lt hx hy
  obtain ⟨t0, ht0⟩ : ∃ t0, b.tiles[b.coords_to_index x y]? = some t0 := by
    cases h0 : b.tiles[b.coords_to_index x y]? with
    | none =>
      have := List.getElem?_eq_none_iff.mp h0
      omega
    | some u => exact ⟨u, rfl⟩
  have hcnt : b.place_hints.nbr_mine_count x y = b.nbr_mine_count x y :=
    nbr_mine_count_congr (place_hints_params b) (place_hints_map_is_mine b) x y
  have hco : b.place_hints.coords_to_index x y = b.coords_to_index x y := by
    unfold Board.coords_to_index
    rw [place_hints_params]
  have hmain := place_hints_tile_at b hx hy t0 ht0
  have htile : b.place_hints.tile x y =
      some (if t0.is_mine = false ∧ 0 < b.nbr_mine_count x y
            then { t0 with object := Object.Hint (b.nbr_mine_count x y) }
            else t0) := by
    unfold Board.tile
    rw [hco]
    exact hmain
  by_cases hm0 : t0.is_mine = false
  · by_cases hc0 : 0 < b.nbr_mine_count x y
    · refine ⟨{ t0 with object := Object.Hint (b.nbr_mine_count x y) }, ?_, ?_⟩
      · rw [htile, if_pos ⟨hm0, hc0⟩]
      · intro _
        constructor
        · intro _
          rw [hcnt]
        · rw [hcnt]
          constructor
          · intro hb
            exact absurd hb (by simp)
          · intro hz
            omega
    · refine ⟨t0, ?_, ?_⟩
      · rw [htile, if_neg (fun hand => hc0 hand.2)]
      · intro _
        have hz : b.nbr_mine_count x y = 0 := by omega
        have hblank : t0.object = Object.Blank := by
          rcases hobj t0 (List.getElem?_mem ht0) with hb | hmn
          · exact hb
          · exact absurd (tile_is_mine_of_object_mine t0 hmn) (by rw [hm0]; exact fun h => Bool.noConfusion h)
        constructor
        · intro hpos
          rw [hcnt] at hpos
          omega
        · rw [hcnt, hz]
          exact iff_of_true hblank rfl
  · refine ⟨t0, ?_, ?_⟩
    · rw [htile, if_neg (fun hand => hm0 hand.1)]
    · intro hmf
      exact absurd hmf hm0

/-- Witness for C4 at a concrete 3x3 board with one mine placed at the
centre index 4. -/
theorem place_hints_counts_correct_witness :
    ((({ Board.new { width := 3, height := 3, mines := 1 } with placed := true }).place_mines [4]).tiles.length =
      (({ Board.new { width := 3, height := 3, mines := 1 } with placed := true }).place_mines [4]).params.width *
        (({ Board.new { width := 3, height := 3, mines := 1 } with placed := true }).place_mines [4]).params.height) ∧
    (∀ u ∈ (({ Board.new { width := 3, height := 3, mines := 1 } with placed := true }).place_mines [4]).tiles,
      u.object = Object.Blank ∨ u.object = Object.Mine) ∧
    ∃ t, (({ Board.new { width := 3, height := 3, mines := 1 } with placed := true }).place_mines [4]).place_hints.tile 0 0 = some t ∧
      (t.is_mine = false →
        (0 < (({ Board.new { width := 3, height := 3, mines := 1 } with placed := true }).place_mines [4]).place_hints.nbr_mine_count 0 0 →
          t.object = Object.Hint ((({ Board.new { width := 3, height := 3, mines := 1 } with placed := true }).place_mines [4]).place_hints.nbr_mine_count 0 0)) ∧
        (t.object = Object.Blank ↔
          (({ Board.new { width := 3, height := 3, mines := 1 } with placed := true }).place_mines [4]).place_hints.nbr_mine_count 0 0 = 0)) :=
  ⟨by decide, by decide,
    place_hints_counts_correct
      (({ Board.new { width := 3, height := 3, mines := 1 } with placed := true }).place_mines [4])
      0 0 (by decide) (by decide) (by decide) (by decide)⟩

theorem ite_board_tiles (c : Prop) [Decidable c] (ts : List Tile)
    (cov n : Nat) (pa : Params) (pl df : Bool) :
    (if c then ({ tiles := ts, covered := n, params := pa, placed := pl, defeat := df } : Board)
     else { tiles := ts, covered := cov, params := pa, placed := pl, defeat := df }).tiles = ts := by
  by_cases h : c <;> simp [h]

theorem ite_board_params (c : Prop) [Decidable c] (ts : List Tile)
    (cov n : Nat) (pa : Params) (pl df : Bool) :
    (if c then ({ tiles := ts, covered := n, params := pa, placed := pl, defeat := df } : Board)
     else { tiles := ts, covered := cov, params := pa, placed := pl, defeat := df }).params = pa := by
  by_cases h : c <;> simp [h]

/-- Finishing lemma for the Blank branch of the first uncover: flooding
from a board whose clicked tile is a revealed Blank preserves the mine
census and the clicked tile's non-mine object. -/
theorem flood_finish (B3 : Board) (x y : Nat) (mines : Nat) (t : Tile)
    (hwf3 : B3.tiles.length = B3.params.width * B3.params.height)
    (hxy3 : y * B3.params.width + x < B3.tiles.length)
    (hmc3 : mineCount B3.tiles = mines)
    (hidx3 : B3.tiles[B3.coords_to_index x y]? = some t)
    (hob : t.object = Object.Blank) :
    ∃ bb, B3.flood_uncover x y = some bb ∧ mineCount bb.tiles = mines ∧
      ∃ tb, bb.tile x y = some tb ∧ tb.is_mine = false := by
  have hsome := flood_uncover_isSome B3 x y hwf3 hxy3
  rcases Option.isSome_iff_exists.mp hsome with ⟨bb, hbb⟩
  obtain ⟨hfp, _, _, _, hfobj⟩ := flood_uncover_preserves hbb
  refine ⟨bb, hbb,
    (mineCount_congr (fun i => map_is_mine_of_map_object (hfobj i))).trans hmc3, ?_⟩
  have hob2 := hfobj (B3.coords_to_index x y)
  rw [hidx3] at hob2
  cases hbo : bb.tiles[B3.coords_to_index x y]? with
  | none =>
    rw [hbo] at hob2
    exact absurd hob2 (by simp)
  | some tb =>
    rw [hbo] at hob2
    have htb : tb.object = Object.Blank := by
      have hto : tb.object = t.object := by simpa using hob2
      rw [hto, hob]
    refine ⟨tb, ?_, tile_is_mine_false_of_blank tb htb⟩
    unfold Board.tile
    have hci : bb.coords_to_index x y = B3.coords_to_index x y := by
      unfold Board.coords_to_index
      rw [hfp]
    rw [hci]
    exact hbo

/-- Claim C3: on a fresh board whose mine count is at most
`width*height - 1`, for every legitimate outcome of the random draw
(`chooseSpec` with the clicked index skipped), the first `handle_uncover`
completes, exactly `mines` tiles hold `Object::Mine` afterwards, and the
clicked tile never holds a mine. -/
theorem first_uncover_places_exact_mines (p : Params) (x y : Nat)
    (chosen : List Nat) (hx : x < p.width) (hy : y < p.height)
    (hm : p.mines ≤ p.width * p.height - 1)
    (hc : chooseSpec (p.width * p.height) [(Board.new p).coords_to_index x y] p.mines chosen) :
    ∃ bb, (Board.new p).handle_uncover x y chosen = some bb ∧
      mineCount bb.tiles = p.mines ∧
      ∃ t, bb.tile x y = some t ∧ t.is_mine = false := by
  obtain ⟨hnd, hmem, hlen⟩ := hc
  have hidx : (Board.new p).coords_to_index x y < p.width * p.height :=
    index_lt hx hy
  have hsub : ∀ i ∈ chosen, i < p.width * p.height := by
    intro i hi
    exact List.mem_range.mp (List.mem_filter.mp (hmem i hi)).1
  have hnotidx : (Board.new p).coords_to_index x y ∉ chosen := by
    intro hin
    have h2 := (List.mem_filter.mp (hmem _ hin)).2
    simp at h2
  have hchlen : chosen.length = p.mines := by
    rw [hlen, length_filter_not_mem_singleton hidx]
    exact min_eq_left hm
  have hmt : ((({ Board.new p with placed := true }).place_mines chosen)).tiles =
      (List.range (p.width * p.height)).map
        (fun i => if i ∈ chosen then { Tile.new with object := Object.Mine } else Tile.new) :=
    fresh_place_mines_tiles rfl chosen
  have hbm_idx : ((({ Board.new p with placed := true }).place_mines chosen)).tiles[(Board.new p).coords_to_index x y]? = some Tile.new := by
    rw [hmt, List.getElem?_map, List.getElem?_range hidx]
    simp [hnotidx]
  have hmc_bm : mineCount ((({ Board.new p with placed := true }).place_mines chosen)).tiles = p.mines := by
    rw [hmt]
    unfold mineCount
    rw [List.filter_map, List.length_map]
    rw [show List.filter (Tile.is_mine ∘ fun i => if i ∈ chosen then { Tile.new with object := Object.Mine } else Tile.new) (List.range (p.width * p.height)) =
        List.filter (fun i => decide (i ∈ chosen)) (List.range (p.width * p.height)) from
      List.filter_congr (fun i _ => by
        by_cases hic : i ∈ chosen <;> simp [Function.comp, hic, Tile.is_mine, Tile.new])]
    rw [length_filter_range_mem hnd hsub]
    exact hchlen
  have hlen1 : (((({ Board.new p with placed := true } : Board)).place_mines chosen).place_hints).tiles.length = p.width * p.height := by
    rw [place_hints_length, place_mines_length]
    exact new_length p
  have hpar1 : (((({ Board.new p with placed := true } : Board)).place_mines chosen).place_hints).params = p := by
    rw [place_hints_params]
    rfl
  have hmc_b1 : mineCount (((({ Board.new p with placed := true } : Board)).place_mines chosen).place_hints).tiles = p.mines :=
    (mineCount_congr (fun i => place_hints_map_is_mine _ i)).trans hmc_bm
  obtain ⟨t1, ht1, ht1cov, ht1mine⟩ :
      ∃ t1, (((({ Board.new p with placed := true } : Board)).place_mines chosen).place_hints).tiles[(Board.new p).coords_to_index x y]? = some t1 ∧
        t1.cover = Cover.Up Mark.None ∧ t1.is_mine = false := by
    cases hopt : (((({ Board.new p with placed := true } : Board)).place_mines chosen).place_hints).tiles[(Board.new p).coords_to_index x y]? with
    | none =>
      have hmap := place_hints_map_cover ((({ Board.new p with placed := true }).place_mines chosen)) ((Board.new p).coords_to_index x y)
      rw [hopt, hbm_idx] at hmap
      exact absurd hmap (by simp)
    | some t1 =>
      have hmapc := place_hints_map_cover ((({ Board.new p with placed := true }).place_mines chosen)) ((Board.new p).coords_to_index x y)
      rw [hopt, hbm_idx] at hmapc
      have hmapm := place_hints_map_is_mine ((({ Board.new p with placed := true }).place_mines chosen)) ((Board.new p).coords_to_index x y)
      rw [hopt, hbm_idx] at hmapm
      refine ⟨t1, rfl, ?_, ?_⟩
      · simpa [Tile.new] using hmapc
      · simpa [Tile.new] using hmapm
  have hlt1 : (Board.new p).coords_to_index x y < (((({ Board.new p with placed := true } : Board)).place_mines chosen).place_hints).tiles.length := by
    rw [hlen1]
    exact hidx
  obtain ⟨c1, o1⟩ := t1
  dsimp only at ht1cov
  subst ht1cov
  unfold Board.handle_uncover
  dsimp only
  rw [if_neg (fun h => Bool.noConfusion h)]
  rw [ht1]
  dsimp only
  rw [if_neg (fun h => Mark.noConfusion h)]
  cases o1 with
  | Mine =>
    exact absurd ht1mine (by decide)
  | Hint n =>
    refine ⟨_, rfl, ?_, ?_⟩
    · rw [ite_board_tiles]
      exact (mineCount_congr (fun i => map_is_mine_of_map_object (set_cover_object_map ht1 Cover.Down i))).trans hmc_b1
    · refine ⟨({ cover := Cover.Down, object := Object.Hint n } : Tile), ?_, rfl⟩
      unfold Board.tile Board.coords_to_index
      rw [ite_board_tiles, ite_board_params, hpar1]
      exact List.getElem?_set_self hlt1
  | Blank =>
    refine flood_finish _ x y p.mines ({ cover := Cover.Down, object := Object.Blank } : Tile) ?_ ?_ ?_ ?_ rfl
    · rw [ite_board_tiles, ite_board_params, List.length_set, hlen1, hpar1]
    · rw [ite_board_tiles, ite_board_params, List.length_set, hlen1, hpar1]
      exact index_lt hx hy
    · rw [ite_board_tiles]
      exact (mineCount_congr (fun i => map_is_mine_of_map_object (set_cover_object_map ht1 Cover.Down i))).trans hmc_b1
    · unfold Board.coords_to_index
      rw [ite_board_tiles, ite_board_params, hpar1]
      exact List.getElem?_set_self hlt1

/-- Witness for C3 at a concrete 3x1/1 board, clicking (0, 0) with the
draw [2]. -/
theorem first_uncover_places_exact_mines_witness :
    chooseSpec (3 * 1) [(Board.new { width := 3, height := 1, mines := 1 }).coords_to_index 0 0] 1 [2] ∧
    ∃ bb, (Board.new { width := 3, height := 1, mines := 1 }).handle_uncover 0 0 [2] = some bb ∧
      mineCount bb.tiles = 1 ∧
      ∃ t, bb.tile 0 0 = some t ∧ t.is_mine = false :=
  ⟨by decide,
    first_uncover_places_exact_mines { width := 3, height := 1, mines := 1 } 0 0 [2]
      (by decide) (by decide) (by decide) (by decide)⟩

end Enimdnal
